import Mathlib

/-!
Shallow embedding of `pkg/driver/kubernetes/podchooser/podchooser.go`.

The Go file defines a `PodChooser` interface with two implementations:

* `RandomPodChooser.ChoosePod` — discovers the running pods of a deployment
  and picks one at a pseudo-random index;
* `StickyPodChooser.ChoosePod` — discovers the running pods, builds a
  consistent-hash ring over their names (external `serialx/hashring`
  library) and picks the ring owner of the chooser's affinity key, falling
  back to the random policy when the ring lookup fails;

together with the shared discovery helper `ListRunningPods`, which issues
one list call against the orchestrator, keeps only pods in the `Running`
phase and sorts them by name.

Modelling conventions:

* the orchestrator's list call is an external effect; each `ChoosePod`
  take the response that call would produce (`Except String (List Pod)`,
  an error or a list of pod objects).  The sticky chooser may perform a
  second list call through its random fallback, so it takes two responses;
* the label-selector construction (`metav1.LabelSelectorAsSelector` on the
  single well-formed `app` label) is external `apimachinery` code and is
  kept outside the modelled boundary;
* a `rand.Source` is modelled by the single non-negative `Int63` draw
  (a value in `[0, 2^63)`) that `rand.New(src).Int()` performs on it; the
  lazily created time-seeded source of the random chooser is modelled by
  the extra `timeDraw` argument;
* Go slices of pointers (`[]*corev1.Pod`) may hold nil entries, so the
  `others` slice is modelled as `List (Option Pod)`; a nil-pointer
  dereference or an out-of-range slice write is modelled by the
  distinguished `crashed` outcome.
-/

namespace corev1

inductive PodPhase where
  | PodPending
  | PodRunning
  | PodSucceeded
  | PodFailed
  | PodUnknown
deriving DecidableEq, Repr

structure Pod where
  Name : String
  Phase : PodPhase
deriving DecidableEq, Repr

end corev1

namespace appsv1

structure Deployment where
  Name : String
deriving DecidableEq, Repr

end appsv1

namespace clientcorev1

structure PodInterface where
  id : Nat
deriving DecidableEq, Repr

end clientcorev1

open corev1

/-- The filter applied by `ListRunningPods`:
`pod.Status.Phase == corev1.PodRunning`, used by
`ListRunningPods`. -/
def isRunning (p : Pod) : Bool := p.Phase == PodPhase.PodRunning

/-- The comparison `runningPods[i].Name < runningPods[j].Name` used by
`sort.Slice` orders pods by name; we sort by the reflexive closure of that
order, stated on the underlying character lists (`String.lt` in Lean is
definitionally the lexicographic order on `String.data`). -/
def nameLE (a b : Pod) : Prop := a.Name.data ≤ b.Name.data

instance : DecidableRel nameLE :=
  fun a b => inferInstanceAs (Decidable (a.Name.data ≤ b.Name.data))

/-- The `sort.Slice(runningPods, ...)` step: a permutation of the input
sorted by pod name (Go's sort is unspecified on ties; insertion sort
produces one such sorted permutation). -/
def sortByName (l : List Pod) : List Pod := List.insertionSort nameLE l

/-- Discovery, `ListRunningPods`: given the orchestrator's response to the single
list call, propagate a failed call unchanged, otherwise keep exactly the
pods whose phase is `PodRunning` and sort them by name. -/
def ListRunningPods (listResp : Except String (List Pod)) :
    Except String (List Pod) :=
  match listResp with
  | .error e => .error e
  | .ok items => .ok (sortByName (items.filter isRunning))

/-- Modelled from the spec: the string hash underlying the consistent-hash
ring of the external `serialx/hashring` library (the library itself is not
part of this repository).  The spec only requires a deterministic hash of
replica identities and lookup keys; we use a simple polynomial string hash
with values below the ring modulus `1000000007`. -/
def strHash (s : String) : Nat :=
  s.data.foldl (fun h c => (h * 131 + c.toNat) % 1000000007) 7

/-- Modelled from the spec: clockwise distance on the hash ring from the
key's position to a node's position. -/
def ringDist (key node : String) : Nat :=
  (strHash node + (1000000007 - strHash key)) % 1000000007

/-- Modelled from the spec: the ring ordering used to resolve a key — the
node at the smallest clockwise distance owns the key, ties broken by the
node name, making the ordering key injective in the node. -/
def ringKey (key node : String) : Nat ×ₗ List Char :=
  toLex (ringDist key node, node.data)

/-- Modelled from the spec: `hashring.New(podNames).GetNode(key)` — a pure,
stateless function of the set of node identities and the lookup key.  It
returns the node owning the key's ring position, and fails (second result
`false` in Go, `none` here) exactly on an empty ring. -/
def GetNode (nodes : List String) (key : String) : Option String :=
  nodes.argmin (ringKey key)

structure RandomPodChooser where
  RandSource : Option Nat
  PodClient : clientcorev1.PodInterface
  Deployment : appsv1.Deployment
deriving DecidableEq, Repr

structure StickyPodChooser where
  Key : String
  PodClient : clientcorev1.PodInterface
  Deployment : appsv1.Deployment
deriving DecidableEq, Repr

/-- The outcome of a `ChoosePod` call: the `(chosen, others, error)`
triple of the Go signature collapsed into one sum — a successful choice,
a returned error, or a runtime crash (nil dereference / slice overrun). -/
inductive ChooseResult where
  | ok (chosen : Pod) (others : List (Option Pod))
  | err (msg : String)
  | crashed
deriving DecidableEq, Repr

/-- The index `n := rnd.Int() % len(pods)` drawn by the random policy
from one source output. -/
def randomIndex (randInt n : Nat) : Nat := randInt % n

/-- The source selection `randSource := pc.RandSource; if randSource == nil { randSource =
rand.NewSource(time.Now().Unix()) }` — the draw the call actually uses:
the injected source's draw when one is configured, else the draw of the
freshly created time-seeded source. -/
def effectiveDraw (pc : RandomPodChooser) (timeDraw : Nat) : Nat :=
  match pc.RandSource with
  | some src => src
  | none => timeDraw

/-- Translation of `RandomPodChooser.ChoosePod`.  State passing: the method reads but
never assigns its receiver's fields, so the returned chooser is the
receiver. -/
def RandomPodChooser.ChoosePod (pc : RandomPodChooser)
    (listResp : Except String (List Pod)) (timeDraw : Nat) :
    ChooseResult × RandomPodChooser :=
  match ListRunningPods listResp with
  | .error e => (.err e, pc)
  | .ok pods =>
    if h0 : pods.length = 0 then
      (.err "no builder pods are running", pc)
    else
      let n := randomIndex (effectiveDraw pc timeDraw) pods.length
      (.ok (pods.get ⟨n, Nat.mod_lt _ (Nat.pos_of_ne_zero h0)⟩)
        ((pods.take n ++ pods.drop (n + 1)).map some), pc)

/-- Lookup `podMap[name]` after the insertion loop `podMap[pod.Name] = pod` over
`pods`: the last pod bearing the name wins; a missing key yields Go's nil
pointer, modelled as `none`. -/
def podMapGet (pods : List Pod) (name : String) : Option Pod :=
  pods.reverse.find? (fun p => p.Name == name)

/-- The loop filling `otherPods := make([]*corev1.Pod, len(pods)-1)`:
walk `pods`, skip every pod named like the chosen pod, write the rest at
increasing indices.  Writing past the end of the buffer is Go's
out-of-range panic, modelled as `none`. -/
def stickyFill (chosenName : String) :
    List Pod → List (Option Pod) → Nat → Option (List (Option Pod))
  | [], buf, _ => some buf
  | pod :: rest, buf, i =>
    if pod.Name == chosenName then
      stickyFill chosenName rest buf i
    else if i < buf.length then
      stickyFill chosenName rest (buf.set i (some pod)) (i + 1)
    else
      none

/-- Translation of `StickyPodChooser.ChoosePod`.  The first response is for its own
discovery call; when the ring lookup fails it builds a fresh
`RandomPodChooser` (nil random source) over the same client and
deployment, whose own discovery call receives the second response. -/
def StickyPodChooser.ChoosePod (pc : StickyPodChooser)
    (listResp fallbackResp : Except String (List Pod)) (timeDraw : Nat) :
    ChooseResult × StickyPodChooser :=
  match ListRunningPods listResp with
  | .error e => (.err e, pc)
  | .ok pods =>
    let podNames := pods.map Pod.Name
    match GetNode podNames pc.Key with
    | none =>
      let rpc : RandomPodChooser :=
        { RandSource := none
          PodClient := pc.PodClient
          Deployment := pc.Deployment }
      ((rpc.ChoosePod fallbackResp timeDraw).1, pc)
    | some chosen =>
      match podMapGet pods chosen with
      | none => (.crashed, pc)
      | some chosenPod =>
        match stickyFill chosenPod.Name pods
            (List.replicate (pods.length - 1) none) 0 with
        | none => (.crashed, pc)
        | some otherPods => (.ok chosenPod otherPods, pc)

/-- The identity (name) of the chosen replica of an outcome, when one was
chosen. -/
def chosenIdent : ChooseResult → Option String
  | .ok chosen _ => some chosen.Name
  | _ => none

/-- How many of the `M` possible source outputs (`rnd.Int()` is uniform on
`[0, 2^63)`, so `M = 2^63`) make the random policy draw index `r` out of
`podCount` pods. -/
def drawCount (podCount M r : Nat) : Nat :=
  ((List.range M).filter (fun draw => randomIndex draw podCount == r)).length

example : ListRunningPods (.ok [⟨"b", .PodRunning⟩, ⟨"a", .PodRunning⟩,
    ⟨"c", .PodPending⟩]) = .ok [⟨"a", .PodRunning⟩, ⟨"b", .PodRunning⟩] := by rfl

example : GetNode ["a", "b"] "k" = some "a" := by decide

/-! ### Helper lemmas about the ring model -/

theorem getNode_mem {nodes : List String} {key c : String}
    (h : GetNode nodes key = some c) : c ∈ nodes :=
  List.argmin_mem h

theorem getNode_eq_none {nodes : List String} {key : String} :
    GetNode nodes key = none ↔ nodes = [] :=
  List.argmin_eq_none

theorem ringKey_inj (key : String) : Function.Injective (ringKey key) := by
  intro a b h
  have h2 : a.data = b.data := congrArg (fun x => (ofLex x).2) h
  exact String.toList_inj.mp h2

theorem getNode_congr {l₁ l₂ : List String} (key : String)
    (h : ∀ a, a ∈ l₁ ↔ a ∈ l₂) : GetNode l₁ key = GetNode l₂ key := by
  cases h₁ : GetNode l₁ key with
  | none =>
    have hn : l₁ = [] := getNode_eq_none.mp h₁
    subst hn
    have hn₂ : l₂ = [] := by
      cases l₂ with
      | nil => rfl
      | cons a t => exact absurd ((h a).mpr (List.mem_cons_self a t)) (by simp)
    simp [hn₂, GetNode]
  | some m₁ =>
    cases h₂ : GetNode l₂ key with
    | none =>
      have hn : l₂ = [] := getNode_eq_none.mp h₂
      subst hn
      exact absurd ((h m₁).mp (getNode_mem h₁)) (by simp)
    | some m₂ =>
      have hm₁ : m₁ ∈ l₂ := (h m₁).mp (getNode_mem h₁)
      have hm₂ : m₂ ∈ l₁ := (h m₂).mpr (getNode_mem h₂)
      have le₁ : ringKey key m₁ ≤ ringKey key m₂ := List.le_of_mem_argmin hm₂ h₁
      have le₂ : ringKey key m₂ ≤ ringKey key m₁ := List.le_of_mem_argmin hm₁ h₂
      rw [ringKey_inj key (le_antisymm le₁ le₂)]

theorem getNode_isSome {nodes : List String} (key : String) (h : nodes ≠ []) :
    ∃ c, GetNode nodes key = some c := by
  cases hg : GetNode nodes key with
  | none => exact absurd (getNode_eq_none.mp hg) h
  | some c => exact ⟨c, rfl⟩

/-! ### Helper lemmas about sorting and discovery -/

instance : IsTotal Pod nameLE :=
  ⟨fun a b => le_total a.Name.data b.Name.data⟩

instance : IsTrans Pod nameLE :=
  ⟨fun _ _ _ h₁ h₂ => le_trans h₁ h₂⟩

theorem sortByName_perm (l : List Pod) : (sortByName l).Perm l :=
  List.perm_insertionSort nameLE l

theorem sortByName_sorted (l : List Pod) : (sortByName l).Sorted nameLE :=
  List.sorted_insertionSort nameLE l

theorem mem_sortByName {l : List Pod} {p : Pod} :
    p ∈ sortByName l ↔ p ∈ l :=
  (sortByName_perm l).mem_iff

theorem listRunningPods_ok (items : List Pod) :
    ListRunningPods (.ok items) = .ok (sortByName (items.filter isRunning)) :=
  rfl

theorem listRunningPods_error (e : String) :
    ListRunningPods (.error e) = .error e :=
  rfl

/-- A successful discovery result is a by-name-sorted permutation of the
running pods of the response. -/
theorem listRunningPods_spec {items pods : List Pod}
    (h : ListRunningPods (.ok items) = .ok pods) :
    pods.Perm (items.filter isRunning) ∧ pods.Sorted nameLE := by
  have : pods = sortByName (items.filter isRunning) := by
    simpa [ListRunningPods] using h.symm
  subst this
  exact ⟨sortByName_perm _, sortByName_sorted _⟩

/-! ### Helper lemmas about the pod map and the fill loop -/

theorem podMapGet_spec {pods : List Pod} {c : String}
    (hc : c ∈ pods.map Pod.Name) :
    ∃ p, podMapGet pods c = some p ∧ p.Name = c ∧ p ∈ pods := by
  obtain ⟨p, hp, hname⟩ := List.mem_map.mp hc
  have hps : (pods.reverse.find? (fun q => q.Name == c)).isSome := by
    rw [List.find?_isSome]
    exact ⟨p, List.mem_reverse.mpr hp, by simp [hname]⟩
  obtain ⟨q, hq⟩ := Option.isSome_iff_exists.mp hps
  have hqmem : q ∈ pods.reverse := List.mem_of_find?_eq_some hq
  have hqname : q.Name = c := by
    have := List.find?_some hq
    simpa using this
  exact ⟨q, hq, hqname, List.mem_reverse.mp hqmem⟩

theorem set_append_cons (A : List (Option Pod)) (b : Option Pod)
    (t : List (Option Pod)) (v : Option Pod) :
    (A ++ b :: t).set A.length v = A ++ v :: t := by
  induction A with
  | nil => rfl
  | cons a A ih => simp [List.set_cons_succ, ih]

/-- Unrolling the `otherPods` fill loop: starting from a prefix `A` of
already-filled slots followed by `m` nil slots, the loop appends the
non-chosen pods in order and leaves the remaining slots nil; it overruns
(panics) exactly when the non-chosen pods outnumber the nil slots. -/
theorem stickyFill_go (c : String) (pods : List Pod) :
    ∀ (A : List (Option Pod)) (m : Nat),
      stickyFill c pods (A ++ List.replicate m none) A.length =
        if (pods.filter (fun p => !(p.Name == c))).length ≤ m then
          some (A ++ (pods.filter (fun p => !(p.Name == c))).map some ++
            List.replicate (m - (pods.filter (fun p => !(p.Name == c))).length) none)
        else none := by
  induction pods with
  | nil => intro A m; simp [stickyFill]
  | cons pod rest ih =>
    intro A m
    by_cases hname : (pod.Name == c) = true
    · simp only [stickyFill, hname, if_true]
      rw [ih A m]
      simp [List.filter_cons, hname]
    · have hfalse : (pod.Name == c) = false := by
        simpa using hname
      have hkept : (pod :: rest).filter (fun p => !(p.Name == c))
          = pod :: rest.filter (fun p => !(p.Name == c)) := by
        simp [List.filter_cons, hfalse]
      rw [hkept]
      cases m with
      | zero =>
        have hcond : ¬(pod :: rest.filter (fun p => !(p.Name == c))).length ≤ 0 := by
          simp
        rw [if_neg hcond]
        simp [stickyFill, hfalse]
      | succ k =>
        have hlt : A.length < (A ++ List.replicate (k + 1) (none : Option Pod)).length := by
          simp
        have hset : (A ++ List.replicate (k + 1) (none : Option Pod)).set A.length (some pod)
            = (A ++ [some pod]) ++ List.replicate k none := by
          rw [List.replicate_succ, set_append_cons]
          simp
        simp only [stickyFill, hfalse, Bool.false_eq_true, if_false, hlt, if_true]
        rw [hset]
        have hAlen : A.length + 1 = (A ++ [some pod]).length := by simp
        rw [hAlen, ih (A ++ [some pod]) k]
        by_cases hle : (rest.filter (fun p => !(p.Name == c))).length ≤ k
        · rw [if_pos hle, if_pos (by simpa using Nat.succ_le_succ hle)]
          simp only [List.map_cons, List.length_cons, Nat.succ_sub_succ]
          simp [List.append_assoc]
        · rw [if_neg hle, if_neg (by simp; omega)]

/-- The fill loop as `ChoosePod` invokes it: when the chosen name occurs
among the pods, the `len(pods)-1` slots hold the non-chosen pods in order
followed by one nil slot per duplicate of the chosen name. -/
theorem stickyFill_replicate {pods : List Pod} {c : String}
    (hc : c ∈ pods.map Pod.Name) :
    stickyFill c pods (List.replicate (pods.length - 1) none) 0 =
      some ((pods.filter (fun p => !(p.Name == c))).map some ++
        List.replicate (pods.countP (fun p => p.Name == c) - 1) none) := by
  have h0 := stickyFill_go c pods [] (pods.length - 1)
  simp only [List.nil_append, List.length_nil] at h0
  have hcnt : 0 < pods.countP (fun p => p.Name == c) := by
    rw [List.countP_pos_iff]
    obtain ⟨p, hp, hname⟩ := List.mem_map.mp hc
    exact ⟨p, hp, by simp [hname]⟩
  have hcnt_le : pods.countP (fun p => p.Name == c) ≤ pods.length :=
    List.countP_le_length _
  have hsplit : (pods.filter (fun p => !(p.Name == c))).length
      = pods.length - pods.countP (fun p => p.Name == c) := by
    have h1 : pods.length = pods.countP (fun p => p.Name == c)
        + pods.countP (fun p => !(p.Name == c)) := by
      simpa using List.length_eq_countP_add_countP (fun p => p.Name == c) pods
    rw [← List.countP_eq_length_filter]
    omega
  have hle : (pods.filter (fun p => !(p.Name == c))).length ≤ pods.length - 1 := by
    rw [hsplit]; omega
  rw [h0, if_pos hle]
  have hrep : pods.length - 1 - (pods.filter (fun p => !(p.Name == c))).length
      = pods.countP (fun p => p.Name == c) - 1 := by
    rw [hsplit]; omega
  rw [hrep]

/-! ### Helper lemmas about partitions and duplicates -/

theorem partition_props {pods : List Pod} {chosen : Pod}
    (hnd : pods.Nodup) (hm : chosen ∈ pods) :
    chosen ∉ pods.erase chosen ∧
      (pods.erase chosen).length = pods.length - 1 ∧
      (chosen :: pods.erase chosen).Perm pods := by
  have hperm : pods.Perm (chosen :: pods.erase chosen) := List.perm_cons_erase hm
  have hnd2 : (chosen :: pods.erase chosen).Nodup := hperm.nodup_iff.mp hnd
  refine ⟨(List.nodup_cons.mp hnd2).1, ?_, hperm.symm⟩
  exact List.length_erase_of_mem hm

theorem filter_ne_name_eq_erase {pods : List Pod} {p : Pod}
    (hnd : (pods.map Pod.Name).Nodup) (hp : p ∈ pods) :
    pods.filter (fun q => !(q.Name == p.Name)) = pods.erase p := by
  induction pods with
  | nil => cases hp
  | cons a rest ih =>
    have hnd0 : (a.Name :: rest.map Pod.Name).Nodup := by simpa using hnd
    have hhead : a.Name ∉ rest.map Pod.Name := (List.nodup_cons.mp hnd0).1
    have hnd' : (rest.map Pod.Name).Nodup := (List.nodup_cons.mp hnd0).2
    by_cases hap : a = p
    · subst hap
      have hkeep : rest.filter (fun q => !(q.Name == a.Name)) = rest := by
        rw [List.filter_eq_self]
        intro q hq
        have hne : q.Name ≠ a.Name :=
          fun he => hhead (he ▸ List.mem_map_of_mem Pod.Name hq)
        simp [hne]
      rw [List.filter_cons, List.erase_cons_head]
      simp [hkeep]
    · have hp' : p ∈ rest := by
        rcases List.mem_cons.mp hp with h | h
        · exact absurd h.symm hap
        · exact h
      have hne : a.Name ≠ p.Name :=
        fun he => hhead (he ▸ List.mem_map_of_mem Pod.Name hp')
      have hkeepa : (!(a.Name == p.Name)) = true := by simp [hne]
      rw [List.filter_cons, List.erase_cons_tail (by simp [hap])]
      simp only [hkeepa, if_true]
      rw [ih hnd' hp']

theorem countP_name_eq_one {pods : List Pod} {c : String}
    (hnd : (pods.map Pod.Name).Nodup) (hc : c ∈ pods.map Pod.Name) :
    pods.countP (fun p => p.Name == c) = 1 := by
  have h1 : (pods.map Pod.Name).count c = 1 :=
    List.count_eq_one_of_mem hnd hc
  rw [← h1, List.count, List.countP_map]
  rfl

/-! ### C3 — discovery filters to Running and sorts by name -/

/-- C3: for every successful list response, `ListRunningPods` succeeds and
returns exactly the pods whose phase is `Running` (a permutation of the
filtered response, with membership characterised), sorted ascending by
name (stated both on raw character lists and on `String` order); an empty
filtered set yields the valid empty result, not an error. -/
theorem C3_list_running_pods (items : List Pod) :
    ListRunningPods (.ok items) = .ok (sortByName (items.filter isRunning)) ∧
    (sortByName (items.filter isRunning)).Perm (items.filter isRunning) ∧
    (sortByName (items.filter isRunning)).Sorted nameLE ∧
    (sortByName (items.filter isRunning)).Sorted (fun a b => a.Name ≤ b.Name) ∧
    (∀ p, p ∈ sortByName (items.filter isRunning) ↔
      p ∈ items ∧ p.Phase = PodPhase.PodRunning) ∧
    (items.filter isRunning = [] → ListRunningPods (.ok items) = .ok []) := by
  refine ⟨rfl, sortByName_perm _, sortByName_sorted _, ?_, ?_, ?_⟩
  · exact (sortByName_sorted _).imp (fun h => String.le_iff_toList_le.mpr h)
  · intro p
    rw [mem_sortByName, List.mem_filter]
    simp [isRunning]
  · intro he
    simp [ListRunningPods, he, sortByName, List.insertionSort]

/-- C3 witness: a concrete response whose running pods are filtered and
sorted, and a concrete response with no running pod yielding the empty
result. -/
theorem C3_list_running_pods_witness :
    ListRunningPods (.ok [⟨"w-2", .PodRunning⟩, ⟨"w-3", .PodPending⟩,
      ⟨"w-1", .PodRunning⟩]) = .ok [⟨"w-1", .PodRunning⟩, ⟨"w-2", .PodRunning⟩] ∧
    ListRunningPods (.ok [⟨"w-3", .PodPending⟩]) = .ok [] := by
  constructor
  · exact (C3_list_running_pods _).1.trans (by rfl)
  · exact (C3_list_running_pods [⟨"w-3", .PodPending⟩]).2.2.2.2.2 (by rfl)

/-! ### C7 — discovery failures propagate verbatim -/

/-- C7: a failing orchestrator list call is propagated unchanged by
`ListRunningPods` and by both `ChoosePod` implementations — the returned
error is the very error of the list call (so a list or cancellation
failure is never rewritten, in particular never into the distinct
"no builder pods are running" error), and no retry happens (the single
response fully determines the outcome). -/
theorem C7_error_propagation (e : String) (pc : RandomPodChooser)
    (spc : StickyPodChooser) (fallbackResp : Except String (List Pod))
    (timeDraw : Nat) :
    ListRunningPods (.error e) = .error e ∧
    (pc.ChoosePod (.error e) timeDraw).1 = .err e ∧
    (spc.ChoosePod (.error e) fallbackResp timeDraw).1 = .err e := by
  exact ⟨rfl, rfl, rfl⟩

/-! ### C8 — choosers are configuration-immutable -/

/-- C8: `ChoosePod` never mutates its receiver: the chooser returned by
the state-passing embedding is the input chooser, field for field — in
particular a nil (`none`) `RandSource` stays nil, the time-seeded draw
being consumed per call and never stored. -/
theorem C8_config_unchanged (pc : RandomPodChooser) (spc : StickyPodChooser)
    (listResp fallbackResp : Except String (List Pod)) (timeDraw : Nat) :
    (pc.ChoosePod listResp timeDraw).2 = pc ∧
    (pc.ChoosePod listResp timeDraw).2.RandSource = pc.RandSource ∧
    (spc.ChoosePod listResp fallbackResp timeDraw).2 = spc ∧
    (spc.ChoosePod listResp fallbackResp timeDraw).2.Key = spc.Key := by
  have h1 : (pc.ChoosePod listResp timeDraw).2 = pc := by
    unfold RandomPodChooser.ChoosePod
    cases ListRunningPods listResp with
    | error e => rfl
    | ok pods =>
      by_cases h : pods.length = 0 <;> simp [h]
  have h2 : (spc.ChoosePod listResp fallbackResp timeDraw).2 = spc := by
    cases hL : ListRunningPods listResp with
    | error e => simp [StickyPodChooser.ChoosePod, hL]
    | ok pods =>
      cases hG : GetNode (pods.map Pod.Name) spc.Key with
      | none => simp [StickyPodChooser.ChoosePod, hL, hG]
      | some chosen =>
        cases hM : podMapGet pods chosen with
        | none => simp [StickyPodChooser.ChoosePod, hL, hG, hM]
        | some chosenPod =>
          cases hF : stickyFill chosenPod.Name pods
              (List.replicate (pods.length - 1) none) 0 with
          | none => simp [StickyPodChooser.ChoosePod, hL, hG, hM, hF]
          | some otherPods => simp [StickyPodChooser.ChoosePod, hL, hG, hM, hF]
  exact ⟨h1, by rw [h1], h2, by rw [h2]⟩

/-! ### Shape lemmas for the two `ChoosePod` implementations -/

theorem lrp_of_filter_nil {items : List Pod} (h : items.filter isRunning = []) :
    ListRunningPods (.ok items) = .ok [] := by
  simp [ListRunningPods, h, sortByName, List.insertionSort]

theorem random_choose_empty (pc : RandomPodChooser)
    {listResp : Except String (List Pod)} (timeDraw : Nat)
    (hL : ListRunningPods listResp = .ok []) :
    (pc.ChoosePod listResp timeDraw).1 = .err "no builder pods are running" := by
  simp [RandomPodChooser.ChoosePod, hL]

theorem random_choose_ok (pc : RandomPodChooser)
    {listResp : Except String (List Pod)} {pods : List Pod} (timeDraw : Nat)
    (hL : ListRunningPods listResp = .ok pods) (hne : pods ≠ []) :
    ∃ h : randomIndex (effectiveDraw pc timeDraw) pods.length < pods.length,
      (pc.ChoosePod listResp timeDraw).1 =
        .ok (pods.get ⟨randomIndex (effectiveDraw pc timeDraw) pods.length, h⟩)
          ((pods.take (randomIndex (effectiveDraw pc timeDraw) pods.length) ++
            pods.drop (randomIndex (effectiveDraw pc timeDraw) pods.length + 1)).map some) := by
  have h0 : ¬ pods.length = 0 := by
    simpa [List.length_eq_zero] using hne
  refine ⟨Nat.mod_lt _ (Nat.pos_of_ne_zero h0), ?_⟩
  simp [RandomPodChooser.ChoosePod, hL, h0]

theorem sticky_fallback (spc : StickyPodChooser)
    {listResp : Except String (List Pod)} {pods : List Pod}
    (fallbackResp : Except String (List Pod)) (timeDraw : Nat)
    (hL : ListRunningPods listResp = .ok pods)
    (hG : GetNode (pods.map Pod.Name) spc.Key = none) :
    (spc.ChoosePod listResp fallbackResp timeDraw).1 =
      (RandomPodChooser.ChoosePod
        { RandSource := none, PodClient := spc.PodClient, Deployment := spc.Deployment }
        fallbackResp timeDraw).1 := by
  simp [StickyPodChooser.ChoosePod, hL, hG]

theorem podMapGet_name {pods : List Pod} {c : String} {p : Pod}
    (hM : podMapGet pods c = some p) : p.Name = c ∧ p ∈ pods := by
  have h1 := List.find?_some hM
  have h2 := List.mem_of_find?_eq_some hM
  exact ⟨by simpa using h1, List.mem_reverse.mp h2⟩

theorem sticky_choose_ok (spc : StickyPodChooser)
    {listResp : Except String (List Pod)} {pods : List Pod} {c : String} {p : Pod}
    (fallbackResp : Except String (List Pod)) (timeDraw : Nat)
    (hL : ListRunningPods listResp = .ok pods)
    (hG : GetNode (pods.map Pod.Name) spc.Key = some c)
    (hM : podMapGet pods c = some p) :
    (spc.ChoosePod listResp fallbackResp timeDraw).1 =
      .ok p ((pods.filter (fun q => !(q.Name == p.Name))).map some ++
        List.replicate (pods.countP (fun q => q.Name == p.Name) - 1) none) := by
  obtain ⟨hpn, _⟩ := podMapGet_name hM
  have hc : p.Name ∈ pods.map Pod.Name := hpn ▸ getNode_mem hG
  have hF := stickyFill_replicate hc
  simp [StickyPodChooser.ChoosePod, hL, hG, hM, hF]

/-! ### C4 — zero running replicas yields the distinct empty-set error -/

/-- C4: when the environment has zero running replicas (every successful
discovery performed by the call reports an empty running set), both
policies return exactly the `"no builder pods are running"` error — by
the shape of `ChooseResult`, this is neither a crash (`crashed`) nor a
successful result carrying a pod, so never a nil chosen pod with a nil
error. -/
theorem C4_empty_replica_set (pc : RandomPodChooser) (spc : StickyPodChooser)
    (items fallbackItems : List Pod) (timeDraw : Nat)
    (h1 : items.filter isRunning = [])
    (h2 : fallbackItems.filter isRunning = []) :
    (pc.ChoosePod (.ok items) timeDraw).1 = .err "no builder pods are running" ∧
    (spc.ChoosePod (.ok items) (.ok fallbackItems) timeDraw).1 =
      .err "no builder pods are running" := by
  have hL : ListRunningPods (.ok items) = .ok [] := lrp_of_filter_nil h1
  have hL2 : ListRunningPods (.ok fallbackItems) = .ok [] := lrp_of_filter_nil h2
  constructor
  · exact random_choose_empty pc timeDraw hL
  · rw [sticky_fallback spc _ timeDraw hL (by simp [GetNode])]
    exact random_choose_empty _ timeDraw hL2

/-- C4 witness: a response holding only a pending pod and an empty
response, for concrete choosers. -/
theorem C4_empty_replica_set_witness :
    ((⟨none, ⟨0⟩, ⟨"d"⟩⟩ : RandomPodChooser).ChoosePod
        (.ok [⟨"a", .PodPending⟩]) 7).1 = .err "no builder pods are running" ∧
    ((⟨"k", ⟨0⟩, ⟨"d"⟩⟩ : StickyPodChooser).ChoosePod
        (.ok [⟨"a", .PodPending⟩]) (.ok []) 7).1 =
      .err "no builder pods are running" :=
  C4_empty_replica_set ⟨none, ⟨0⟩, ⟨"d"⟩⟩ ⟨"k", ⟨0⟩, ⟨"d"⟩⟩
    [⟨"a", .PodPending⟩] [] 7 (by rfl) (by rfl)

/-! ### C5 — failed ring lookup degrades to the random policy -/

/-- C5: when the ring lookup fails to resolve a node for the key, the
sticky policy neither crashes nor reports an error for that reason: the
call returns exactly what the random policy's algorithm (a freshly built
`RandomPodChooser` over the same client and deployment, with no injected
source) produces for that single call. -/
theorem C5_ring_miss_fallback (spc : StickyPodChooser)
    {listResp : Except String (List Pod)} {pods : List Pod}
    (fallbackResp : Except String (List Pod)) (timeDraw : Nat)
    (hL : ListRunningPods listResp = .ok pods)
    (hG : GetNode (pods.map Pod.Name) spc.Key = none) :
    (spc.ChoosePod listResp fallbackResp timeDraw).1 =
      (RandomPodChooser.ChoosePod
        { RandSource := none, PodClient := spc.PodClient, Deployment := spc.Deployment }
        fallbackResp timeDraw).1 :=
  sticky_fallback spc fallbackResp timeDraw hL hG

/-- C5 witness: with an empty discovery result the ring is empty, the
lookup fails, and the sticky call returns the random policy's outcome on
the fallback discovery. -/
theorem C5_ring_miss_fallback_witness :
    ((⟨"k", ⟨0⟩, ⟨"d"⟩⟩ : StickyPodChooser).ChoosePod (.ok [])
        (.ok [⟨"w", .PodRunning⟩]) 3).1 =
      (RandomPodChooser.ChoosePod ⟨none, ⟨0⟩, ⟨"d"⟩⟩
        (.ok [⟨"w", .PodRunning⟩]) 3).1 :=
  C5_ring_miss_fallback ⟨"k", ⟨0⟩, ⟨"d"⟩⟩ (.ok [⟨"w", .PodRunning⟩]) 3
    (by rfl) (by rfl)

/-! ### C9 — empty first discovery delegates to a fresh random chooser -/

/-- C9: when the sticky chooser's own discovery returns an empty running
set, it does not produce the empty-set error itself: the empty ring makes
the lookup fail, and the call returns whatever a newly constructed
`RandomPodChooser` (nil random source) produces — including a second
discovery call whose result alone determines the outcome; in particular a
singleton running set in the second response yields that pod, not an
error. -/
theorem C9_sticky_empty_first_discovery (spc : StickyPodChooser)
    (items : List Pod) (fallbackResp : Except String (List Pod))
    (timeDraw : Nat) (h1 : items.filter isRunning = []) :
    ((spc.ChoosePod (.ok items) fallbackResp timeDraw).1 =
      (RandomPodChooser.ChoosePod
        { RandSource := none, PodClient := spc.PodClient, Deployment := spc.Deployment }
        fallbackResp timeDraw).1) ∧
    (∀ name : String,
      (spc.ChoosePod (.ok items) (.ok [⟨name, PodPhase.PodRunning⟩]) timeDraw).1 =
        .ok ⟨name, PodPhase.PodRunning⟩ []) := by
  have hL : ListRunningPods (.ok items) = .ok [] := lrp_of_filter_nil h1
  constructor
  · exact sticky_fallback spc fallbackResp timeDraw hL (by simp [GetNode])
  · intro name
    rw [sticky_fallback spc _ timeDraw hL (by simp [GetNode])]
    have hL1 : ListRunningPods (.ok [⟨name, PodPhase.PodRunning⟩])
        = .ok [⟨name, PodPhase.PodRunning⟩] := by
      simp [ListRunningPods, isRunning, sortByName, List.insertionSort]
    obtain ⟨hlt, he⟩ := random_choose_ok
      ⟨none, spc.PodClient, spc.Deployment⟩ timeDraw hL1 (by simp)
    rw [he]
    simp [randomIndex, Nat.mod_one]

/-! ### C1 — both policies partition the discovered set -/

/-- C1: for every non-empty replica set returned by discovery (whose pod
names are pairwise distinct, as the orchestrator guarantees for one
namespace), both `ChoosePod` implementations succeed with a pair
`(chosen, others)` where `chosen` is a discovered pod, `chosen` is not
among the `others`, `others` has exactly one element less than the set,
`chosen` together with `others` is a permutation of the discovered
sequence (so their union is the discovered set, without duplicates), and
`others` is the discovered sequence with the single chosen element
removed, order otherwise preserved (`List.erase`); with exactly one
replica `others` is empty. -/
theorem C1_choose_pod_partition
    (pc : RandomPodChooser) (spc : StickyPodChooser)
    {listResp : Except String (List Pod)} {pods : List Pod}
    (fallbackResp : Except String (List Pod)) (timeDraw : Nat)
    (hL : ListRunningPods listResp = .ok pods)
    (hne : pods ≠ [])
    (hnd : (pods.map Pod.Name).Nodup) :
    (∃ chosen others,
      (pc.ChoosePod listResp timeDraw).1 = .ok chosen (others.map some) ∧
      chosen ∈ pods ∧ chosen ∉ others ∧
      others.length = pods.length - 1 ∧
      (chosen :: others).Perm pods ∧
      others = pods.erase chosen) ∧
    (∃ chosen others,
      (spc.ChoosePod listResp fallbackResp timeDraw).1 = .ok chosen (others.map some) ∧
      chosen ∈ pods ∧ chosen ∉ others ∧
      others.length = pods.length - 1 ∧
      (chosen :: others).Perm pods ∧
      others = pods.erase chosen) := by
  have hndp : pods.Nodup := List.Nodup.of_map _ hnd
  constructor
  · obtain ⟨h, he⟩ := random_choose_ok pc timeDraw hL hne
    have htd : pods.take (randomIndex (effectiveDraw pc timeDraw) pods.length) ++
        pods.drop (randomIndex (effectiveDraw pc timeDraw) pods.length + 1) =
        pods.eraseIdx (randomIndex (effectiveDraw pc timeDraw) pods.length) :=
      (List.eraseIdx_eq_take_drop_succ pods _).symm
    have her : pods.erase
        (pods.get ⟨randomIndex (effectiveDraw pc timeDraw) pods.length, h⟩) =
        pods.eraseIdx (randomIndex (effectiveDraw pc timeDraw) pods.length) :=
      List.Nodup.erase_get hndp _
    have hmem : pods.get ⟨randomIndex (effectiveDraw pc timeDraw) pods.length, h⟩ ∈ pods :=
      List.get_mem pods _ _
    obtain ⟨hni, hlen, hperm⟩ := partition_props hndp hmem
    refine ⟨_, pods.erase
      (pods.get ⟨randomIndex (effectiveDraw pc timeDraw) pods.length, h⟩),
      ?_, hmem, hni, hlen, hperm, rfl⟩
    rw [he, htd, ← her]
  · have hnames_ne : pods.map Pod.Name ≠ [] := by
      simpa [List.map_eq_nil_iff] using hne
    obtain ⟨c, hG⟩ := getNode_isSome spc.Key hnames_ne
    have hc : c ∈ pods.map Pod.Name := getNode_mem hG
    obtain ⟨p, hM, hpn, hpmem⟩ := podMapGet_spec hc
    have he := sticky_choose_ok spc fallbackResp timeDraw hL hG hM
    have hcnt : pods.countP (fun q => q.Name == p.Name) = 1 :=
      countP_name_eq_one hnd (hpn ▸ hc)
    have hkept : pods.filter (fun q => !(q.Name == p.Name)) = pods.erase p :=
      filter_ne_name_eq_erase hnd hpmem
    rw [hcnt, hkept] at he
    simp only [Nat.sub_self, List.replicate_zero, List.append_nil] at he
    obtain ⟨hni, hlen, hperm⟩ := partition_props hndp hpmem
    exact ⟨p, pods.erase p, he, hpmem, hni, hlen, hperm, rfl⟩

/-- C1 witness: a two-pod running set chosen from by both policies. -/
theorem C1_choose_pod_partition_witness :
    (∃ chosen others,
      ((⟨some 1, ⟨0⟩, ⟨"d"⟩⟩ : RandomPodChooser).ChoosePod
          (.ok [⟨"a", .PodRunning⟩, ⟨"b", .PodRunning⟩]) 0).1 =
        .ok chosen (others.map some) ∧
      chosen ∈ [⟨"a", .PodRunning⟩, ⟨"b", .PodRunning⟩] ∧ chosen ∉ others ∧
      others.length = ([⟨"a", .PodRunning⟩, ⟨"b", .PodRunning⟩] : List Pod).length - 1 ∧
      (chosen :: others).Perm [⟨"a", .PodRunning⟩, ⟨"b", .PodRunning⟩] ∧
      others = ([⟨"a", .PodRunning⟩, ⟨"b", .PodRunning⟩] : List Pod).erase chosen) ∧
    (∃ chosen others,
      ((⟨"k", ⟨0⟩, ⟨"d"⟩⟩ : StickyPodChooser).ChoosePod
          (.ok [⟨"a", .PodRunning⟩, ⟨"b", .PodRunning⟩]) (.ok []) 0).1 =
        .ok chosen (others.map some) ∧
      chosen ∈ [⟨"a", .PodRunning⟩, ⟨"b", .PodRunning⟩] ∧ chosen ∉ others ∧
      others.length = ([⟨"a", .PodRunning⟩, ⟨"b", .PodRunning⟩] : List Pod).length - 1 ∧
      (chosen :: others).Perm [⟨"a", .PodRunning⟩, ⟨"b", .PodRunning⟩] ∧
      others = ([⟨"a", .PodRunning⟩, ⟨"b", .PodRunning⟩] : List Pod).erase chosen) :=
  C1_choose_pod_partition ⟨some 1, ⟨0⟩, ⟨"d"⟩⟩ ⟨"k", ⟨0⟩, ⟨"d"⟩⟩
    (.ok []) 0 (by rfl) (by simp) (by decide)

/-! ### C2 — sticky choice depends only on the key and the membership -/

/-- Two discovery results carry the same membership when the same pod
names occur in both. -/
def sameNames (l₁ l₂ : List Pod) : Prop :=
  ∀ a, a ∈ l₁.map Pod.Name ↔ a ∈ l₂.map Pod.Name

/-- C2: two sticky invocations with the same affinity key whose discovery
results (including the discovery a fallback would perform) have the same
membership return the same chosen replica identity. -/
theorem C2_sticky_consistency (key : String)
    (spcA spcB : StickyPodChooser) (hKA : spcA.Key = key) (hKB : spcB.Key = key)
    (respA1 respA2 respB1 respB2 : Except String (List Pod))
    (podsA1 podsA2 podsB1 podsB2 : List Pod) (drawA drawB : Nat)
    (hA1 : ListRunningPods respA1 = .ok podsA1)
    (hA2 : ListRunningPods respA2 = .ok podsA2)
    (hB1 : ListRunningPods respB1 = .ok podsB1)
    (hB2 : ListRunningPods respB2 = .ok podsB2)
    (mAB : sameNames podsA1 podsB1)
    (mA : sameNames podsA2 podsA1)
    (mB : sameNames podsB2 podsB1) :
    chosenIdent (spcA.ChoosePod respA1 respA2 drawA).1 =
      chosenIdent (spcB.ChoosePod respB1 respB2 drawB).1 := by
  by_cases hEmpty : podsA1.map Pod.Name = []
  · have hA1nil : podsA1 = [] := List.map_eq_nil_iff.mp hEmpty
    have hB1nil : podsB1 = [] := by
      rw [← List.map_eq_nil_iff (f := Pod.Name), List.eq_nil_iff_forall_not_mem]
      intro a ha
      exact (List.eq_nil_iff_forall_not_mem.mp hEmpty a) ((mAB a).mpr ha)
    have hA2nil : podsA2 = [] := by
      rw [← List.map_eq_nil_iff (f := Pod.Name), List.eq_nil_iff_forall_not_mem]
      intro a ha
      exact (List.eq_nil_iff_forall_not_mem.mp hEmpty a) ((mA a).mp ha)
    have hB2nil : podsB2 = [] := by
      rw [← List.map_eq_nil_iff (f := Pod.Name), List.eq_nil_iff_forall_not_mem]
      intro a ha
      exact (List.eq_nil_iff_forall_not_mem.mp (hB1nil ▸ rfl) a) ((mB a).mp ha)
    subst hA1nil hA2nil hB1nil hB2nil
    rw [sticky_fallback spcA respA2 drawA hA1 (by simp [GetNode]),
      sticky_fallback spcB respB2 drawB hB1 (by simp [GetNode]),
      random_choose_empty _ drawA hA2, random_choose_empty _ drawB hB2]
  · have hBne : podsB1.map Pod.Name ≠ [] := by
      intro h
      apply hEmpty
      rw [List.eq_nil_iff_forall_not_mem]
      intro a ha
      exact (List.eq_nil_iff_forall_not_mem.mp h a) ((mAB a).mp ha)
    obtain ⟨c, hGA⟩ := getNode_isSome key hEmpty
    have hGB : GetNode (podsB1.map Pod.Name) key = some c := by
      rw [← getNode_congr key mAB]
      exact hGA
    have hcA : c ∈ podsA1.map Pod.Name := getNode_mem hGA
    have hcB : c ∈ podsB1.map Pod.Name := getNode_mem hGB
    obtain ⟨pA, hMA, hpnA, _⟩ := podMapGet_spec hcA
    obtain ⟨pB, hMB, hpnB, _⟩ := podMapGet_spec hcB
    rw [sticky_choose_ok spcA respA2 drawA hA1 (hKA ▸ hGA) hMA,
      sticky_choose_ok spcB respB2 drawB hB1 (hKB ▸ hGB) hMB]
    simp [chosenIdent, hpnA, hpnB]

/-- C2 witness: the same key over two responses listing the same two
running pods in different orders, with different fallback draws. -/
theorem C2_sticky_consistency_witness :
    chosenIdent ((⟨"k", ⟨0⟩, ⟨"d"⟩⟩ : StickyPodChooser).ChoosePod
        (.ok [⟨"b", .PodRunning⟩, ⟨"a", .PodRunning⟩])
        (.ok [⟨"a", .PodRunning⟩, ⟨"b", .PodRunning⟩]) 0).1 =
      chosenIdent ((⟨"k", ⟨0⟩, ⟨"d"⟩⟩ : StickyPodChooser).ChoosePod
        (.ok [⟨"a", .PodRunning⟩, ⟨"b", .PodRunning⟩])
        (.ok [⟨"a", .PodRunning⟩, ⟨"b", .PodRunning⟩]) 5).1 :=
  C2_sticky_consistency "k" ⟨"k", ⟨0⟩, ⟨"d"⟩⟩ ⟨"k", ⟨0⟩, ⟨"d"⟩⟩ rfl rfl
    (.ok [⟨"b", .PodRunning⟩, ⟨"a", .PodRunning⟩])
    (.ok [⟨"a", .PodRunning⟩, ⟨"b", .PodRunning⟩])
    (.ok [⟨"a", .PodRunning⟩, ⟨"b", .PodRunning⟩])
    (.ok [⟨"a", .PodRunning⟩, ⟨"b", .PodRunning⟩])
    [⟨"a", .PodRunning⟩, ⟨"b", .PodRunning⟩]
    [⟨"a", .PodRunning⟩, ⟨"b", .PodRunning⟩]
    [⟨"a", .PodRunning⟩, ⟨"b", .PodRunning⟩]
    [⟨"a", .PodRunning⟩, ⟨"b", .PodRunning⟩] 0 5
    (by rfl) (by rfl) (by rfl) (by rfl)
    (fun a => Iff.rfl) (fun a => Iff.rfl) (fun a => Iff.rfl)

/-! ### C10 — distinct names are the precondition for a nil-free result -/

/-- C10: the sticky result's guarantees require pairwise-distinct
discovered pod names.  With distinct names the `others` slice holds no
nil entry (it is exactly the map of the non-chosen pods); when the chosen
name occurs `k ≥ 2` times, the fill loop skips every occurrence, leaving
`k - 1 ≥ 1` nil entries at the tail of the length-`(N-1)` slice. -/
theorem C10_duplicate_names (spc : StickyPodChooser)
    {listResp : Except String (List Pod)} {pods : List Pod} {c : String} {p : Pod}
    (fallbackResp : Except String (List Pod)) (timeDraw : Nat)
    (hL : ListRunningPods listResp = .ok pods)
    (hG : GetNode (pods.map Pod.Name) spc.Key = some c)
    (hM : podMapGet pods c = some p) :
    ((pods.map Pod.Name).Nodup →
      (spc.ChoosePod listResp fallbackResp timeDraw).1 =
        .ok p ((pods.erase p).map some)) ∧
    (2 ≤ pods.countP (fun q => q.Name == c) →
      (spc.ChoosePod listResp fallbackResp timeDraw).1 =
        .ok p ((pods.filter (fun q => !(q.Name == c))).map some ++
          List.replicate (pods.countP (fun q => q.Name == c) - 1) none) ∧
      1 ≤ pods.countP (fun q => q.Name == c) - 1) := by
  obtain ⟨hpn, hpmem⟩ := podMapGet_name hM
  subst hpn
  have he := sticky_choose_ok spc fallbackResp timeDraw hL hG hM
  constructor
  · intro hnd
    have hcnt : pods.countP (fun q => q.Name == p.Name) = 1 :=
      countP_name_eq_one hnd (getNode_mem hG)
    have hkept : pods.filter (fun q => !(q.Name == p.Name)) = pods.erase p :=
      filter_ne_name_eq_erase hnd hpmem
    rw [hcnt, hkept] at he
    simpa using he
  · intro hdup
    exact ⟨he, by omega⟩

/-- C10 witness: two running pods sharing one name — the chosen pod's
`others` slice is a single nil entry. -/
theorem C10_duplicate_names_witness :
    ((⟨"k", ⟨0⟩, ⟨"d"⟩⟩ : StickyPodChooser).ChoosePod
        (.ok [⟨"a", .PodRunning⟩, ⟨"a", .PodRunning⟩]) (.ok []) 0).1 =
      .ok ⟨"a", .PodRunning⟩ [none] :=
  (((@C10_duplicate_names ⟨"k", ⟨0⟩, ⟨"d"⟩⟩
    (.ok [⟨"a", .PodRunning⟩, ⟨"a", .PodRunning⟩])
    [⟨"a", .PodRunning⟩, ⟨"a", .PodRunning⟩] "a" ⟨"a", .PodRunning⟩
    (.ok []) 0 (by rfl) (by decide) (by rfl)).2 (by decide)).1).trans (by rfl)

/-- C9 witness: an all-pending first response with a running pod in the
second response yields that pod. -/
theorem C9_sticky_empty_first_discovery_witness :
    ((⟨"k", ⟨0⟩, ⟨"d"⟩⟩ : StickyPodChooser).ChoosePod
        (.ok [⟨"a", .PodPending⟩]) (.ok [⟨"w", .PodRunning⟩]) 9).1 =
      .ok ⟨"w", .PodRunning⟩ [] :=
  (C9_sticky_empty_first_discovery ⟨"k", ⟨0⟩, ⟨"d"⟩⟩
    [⟨"a", .PodPending⟩] (.ok [⟨"w", .PodRunning⟩]) 9 (by rfl)).2 "w"

/-! ### C6 — the random index: in range and chosen, but modulo-biased -/

theorem drawCount_succ (N M r : Nat) :
    drawCount N (M + 1) r = drawCount N M r + (if M % N = r then 1 else 0) := by
  unfold drawCount
  rw [List.range_succ, List.filter_append, List.length_append]
  by_cases h : M % N = r
  · have hb : (randomIndex M N == r) = true := by simpa [randomIndex] using h
    simp [List.filter, hb, h]
  · have hb : (randomIndex M N == r) = false := by simpa [randomIndex] using h
    simp [List.filter, hb, h]

/-- Closed form for the draw counter: index `r < N` is hit by one source
value per full block of `N` consecutive outputs, plus one extra value
when `r` falls below the remainder `M % N`. -/
theorem drawCount_formula (N : Nat) (hN : 0 < N) (r : Nat) (hr : r < N) :
    ∀ M, drawCount N M r = M / N + (if r < M % N then 1 else 0) := by
  intro M
  induction M with
  | zero => simp [drawCount]
  | succ M ih =>
    rw [drawCount_succ, ih]
    have hdm := Nat.div_add_mod M N
    have hs : M % N < N := Nat.mod_lt _ hN
    by_cases hsN : M % N + 1 = N
    · have hexp : N * (M / N + 1) = N * (M / N) + N := by ring
      have hM1 : M + 1 = N * (M / N + 1) := by
        rw [hexp]
        omega
      have hd : (M + 1) / N = M / N + 1 := by
        rw [hM1, Nat.mul_div_cancel_left _ hN]
      have hm : (M + 1) % N = 0 := by
        rw [hM1, Nat.mul_mod_right]
      rw [hd, hm]
      split_ifs <;> omega
    · have hsN2 : M % N + 1 < N := by omega
      have hM1 : M + 1 = (M % N + 1) + N * (M / N) := by omega
      have hd : (M + 1) / N = M / N := by
        rw [hM1, Nat.add_mul_div_left _ _ hN, Nat.div_eq_of_lt hsN2, Nat.zero_add]
      have hm : (M + 1) % N = M % N + 1 := by
        rw [hM1, Nat.add_mul_mod_self_left, Nat.mod_eq_of_lt hsN2]
      rw [hd, hm]
      split_ifs <;> omega

/-- C6 counterexample: the claim asserts the drawn index is uniformly
distributed over `[0, N)` — each index equally likely over the source's
output range `[0, 2^63)`.  Already for `N = 3` running pods this fails:
`2^63 % 3 = 2`, so index `0` is produced by one more source output than
index `2` (`rnd.Int() % len(pods)` has modulo bias). -/
theorem C6_uniform_index_counterexample :
    drawCount 3 (2 ^ 63) 0 ≠ drawCount 3 (2 ^ 63) 2 := by
  have h0 := drawCount_formula 3 (by norm_num) 0 (by norm_num) (2 ^ 63)
  have h2 := drawCount_formula 3 (by norm_num) 2 (by norm_num) (2 ^ 63)
  have hm : (2 : Nat) ^ 63 % 3 = 2 := by norm_num
  rw [h0, h2, hm]
  norm_num

/-- C6 amended: for every non-empty replica set of length `N` and every
source draw, `RandomPodChooser.ChoosePod` reduces the draw modulo `N`,
obtaining an index in `[0, N)`, and chooses the replica at that index
(with `others` the rest in order); across the source's output range
`[0, 2^63)` the indices are equally likely exactly when `N` divides
`2^63` — otherwise the distribution is only approximately uniform, with
smaller indices receiving one extra output each. -/
theorem C6_random_index_amended :
    (∀ draw len, 0 < len → randomIndex draw len < len) ∧
    (∀ (pc : RandomPodChooser) (listResp : Except String (List Pod))
      (pods : List Pod) (draw timeDraw : Nat),
      ListRunningPods listResp = .ok pods → pods ≠ [] →
      pc.RandSource = some draw →
      ∃ h : randomIndex draw pods.length < pods.length,
        (pc.ChoosePod listResp timeDraw).1 =
          .ok (pods.get ⟨randomIndex draw pods.length, h⟩)
            ((pods.take (randomIndex draw pods.length) ++
              pods.drop (randomIndex draw pods.length + 1)).map some)) ∧
    (∀ N r₁ r₂, N ∣ 2 ^ 63 → r₁ < N → r₂ < N →
      drawCount N (2 ^ 63) r₁ = drawCount N (2 ^ 63) r₂) := by
  refine ⟨fun draw len hlen => Nat.mod_lt _ hlen, ?_, ?_⟩
  · intro pc listResp pods draw timeDraw hL hne hsrc
    have hdraw : effectiveDraw pc timeDraw = draw := by
      simp [effectiveDraw, hsrc]
    subst hdraw
    exact random_choose_ok pc timeDraw hL hne
  · intro N r₁ r₂ hdvd hr₁ hr₂
    have hN : 0 < N := by
      rcases Nat.eq_zero_or_pos N with h | h
      · subst h
        have : (2 : Nat) ^ 63 = 0 := Nat.eq_zero_of_zero_dvd hdvd
        norm_num at this
      · exact h
    have hm : (2 : Nat) ^ 63 % N = 0 := Nat.mod_eq_zero_of_dvd hdvd
    rw [drawCount_formula N hN r₁ hr₁, drawCount_formula N hN r₂ hr₂, hm]
    simp

/-- C6 amended witness: index `5 mod 3 = 2` is in range; a chooser with
injected draw 5 over two running pods picks the pod at index `5 mod 2 =
1`; and for `N = 2` (which divides `2^63`) both indices are hit equally
often. -/
theorem C6_random_index_amended_witness :
    randomIndex 5 3 < 3 ∧
    ((⟨some 5, ⟨0⟩, ⟨"d"⟩⟩ : RandomPodChooser).ChoosePod
        (.ok [⟨"a", .PodRunning⟩, ⟨"b", .PodRunning⟩]) 0).1 =
      .ok ⟨"b", .PodRunning⟩ [some ⟨"a", .PodRunning⟩] ∧
    drawCount 2 (2 ^ 63) 0 = drawCount 2 (2 ^ 63) 1 := by
  refine ⟨C6_random_index_amended.1 5 3 (by norm_num), ?_,
    C6_random_index_amended.2.2 2 0 1 ⟨2 ^ 62, by norm_num⟩
      (by norm_num) (by norm_num)⟩
  obtain ⟨h, he⟩ := C6_random_index_amended.2.1 ⟨some 5, ⟨0⟩, ⟨"d"⟩⟩
    (.ok [⟨"a", .PodRunning⟩, ⟨"b", .PodRunning⟩])
    [⟨"a", .PodRunning⟩, ⟨"b", .PodRunning⟩] 5 0 (by rfl) (by simp) rfl
  exact he.trans (by rfl)
